import Mathlib

/-!
# Verification of the maintenance-scheduling model (src/main.py)

The program builds a Pyomo binary program that schedules a maintenance
shutdown over days 1..T, choosing between one 5-day window and a split
3-day + 2-day pair of windows, and interprets the solved assignment.

We shallowly embed the model built by `build_model` as the predicate
`Feasible` on 0/1 assignments (the set of assignments satisfying every
constraint of the built model, including variable domains and fixed
variables), the objective as the rational-valued function
`profitObjective`, and the interpreter `print_solution` as a pure
function from solver status and solved variable values to a structured
report.  Machine reals (Pyomo/GLPK floats) are modelled as rationals.
-/

namespace MaintSched

/-- A 0/1 assignment to the decision variables of the built model:
`Split` (global), and per-day `Maintenance`, `Start5`, `Start3`,
`Start2` (src/main.py lines 39-43).  Values are naturals; `Feasible`
restricts them to 0/1 on the model's index set. -/
structure Assign where
  split : ℕ
  maintenance : ℕ → ℕ
  start5 : ℕ → ℕ
  start3 : ℕ → ℕ
  start2 : ℕ → ℕ

/-- The model's day index set `model.T = RangeSet(1, T)` (src/main.py
line 33): days 1..T. -/
def days (T : ℕ) : Finset ℕ := Finset.Icc 1 T

/-- Right-hand side of the linking constraint `link_maintenance_rule`
(src/main.py lines 55-59): the window-start variables whose window
covers day `d`, with each summation range `range(max(1, day - c), day + 1)`
clipped at 1 on the left. -/
def link_maintenance_rhs (a : Assign) (d : ℕ) : ℕ :=
  (∑ k ∈ Finset.Icc (max 1 (d - 4)) d, a.start5 k) +
  (∑ k ∈ Finset.Icc (max 1 (d - 2)) d, a.start3 k) +
  (∑ k ∈ Finset.Icc (max 1 (d - 1)) d, a.start2 k)

/-- The feasible set of the model returned by `build_model prod price
coeff availability capacity fixed_cost` (src/main.py lines 29-72).
An assignment is feasible iff it satisfies, in order:
* the binary domains of `Split`, `Maintenance`, `Start5`, `Start3`,
  `Start2` (lines 39-43);
* the fixing `StartX[day].fix(0)` on each day whose availability is
  falsy (lines 45-49);
* `one_maintenance_start_5` : `sum(Start5) == 1 - Split` (line 51);
* `one_maintenance_start_3` : `sum(Start3) == Split` (line 52);
* `one_maintenance_start_2` : `sum(Start2) == Split` (line 53);
* `link_maintenance` for every day (lines 55-61).
Only the availability flags and the horizon shape the feasible set;
forecasts and scalars only enter the objective. -/
def Feasible (T : ℕ) (avail : ℕ → Bool) (a : Assign) : Prop :=
  a.split ≤ 1 ∧
  (∀ d ∈ days T,
    a.maintenance d ≤ 1 ∧ a.start5 d ≤ 1 ∧ a.start3 d ≤ 1 ∧ a.start2 d ≤ 1) ∧
  (∀ d ∈ days T, avail d = false →
    a.start5 d = 0 ∧ a.start3 d = 0 ∧ a.start2 d = 0) ∧
  (∑ d ∈ days T, a.start5 d) = 1 - a.split ∧
  (∑ d ∈ days T, a.start3 d) = a.split ∧
  (∑ d ∈ days T, a.start2 d) = a.split ∧
  (∀ d ∈ days T, a.maintenance d = link_maintenance_rhs a d)

instance (T : ℕ) (avail : ℕ → Bool) (a : Assign) :
    Decidable (Feasible T avail a) := by
  unfold Feasible
  infer_instance

/-- The objective `model.profit` of the built model (src/main.py lines
63-70): `sum(capacity * Production[day] * Prices[day] * (1 - Maintenance[day])
- fixed_cost * MaintenanceCoeff[day] * Maintenance[day] for day in model.T)`,
maximized.  Reals are modelled as rationals. -/
def profitObjective (T : ℕ) (prod price coeff : ℕ → ℚ)
    (capacity fixed_cost : ℚ) (a : Assign) : ℚ :=
  ∑ d ∈ days T,
    (capacity * prod d * price d * (1 - (a.maintenance d : ℚ)) -
      fixed_cost * coeff d * (a.maintenance d : ℚ))

/-! ## Concrete assignments used as witnesses and counterexamples -/

/-- Full availability (`availability = {d: 1 for d in range(1, T+1)}`,
src/main.py line 95). -/
def availAllTrue : ℕ → Bool := fun _ => true

/-- A feasible 5-day-strategy assignment for `T = 7`: the single 5-day
window starts on day 2 and covers days 2..6. -/
def exAssignA : Assign where
  split := 0
  maintenance := fun d => if 2 ≤ d ∧ d ≤ 6 then 1 else 0
  start5 := fun d => if d = 2 then 1 else 0
  start3 := fun _ => 0
  start2 := fun _ => 0

example : Feasible 7 availAllTrue exAssignA := by decide

/-! ## C1: mutual exclusivity of the window-start counts -/

/-- C1.  In every feasible assignment of a model produced by
`build_model`: if `split = 0` then the day-sum of `start5` is 1 and the
day-sums of `start3` and `start2` are both 0; if `split = 1` then the
day-sums of `start3` and `start2` are each 1 and the day-sum of
`start5` is 0. -/
theorem claim_C1_mutual_exclusivity (T : ℕ) (avail : ℕ → Bool) (a : Assign)
    (hf : Feasible T avail a) :
    (a.split = 0 →
      (∑ d ∈ days T, a.start5 d) = 1 ∧
      (∑ d ∈ days T, a.start3 d) = 0 ∧
      (∑ d ∈ days T, a.start2 d) = 0) ∧
    (a.split = 1 →
      (∑ d ∈ days T, a.start3 d) = 1 ∧
      (∑ d ∈ days T, a.start2 d) = 1 ∧
      (∑ d ∈ days T, a.start5 d) = 0) := by
  obtain ⟨-, -, -, h5, h3, h2, -⟩ := hf
  constructor
  · intro h0
    rw [h0] at h5 h3 h2
    exact ⟨h5, h3, h2⟩
  · intro h1
    rw [h1] at h5 h3 h2
    exact ⟨h3, h2, h5⟩

/-- Witness for C1 at the concrete feasible assignment `exAssignA`
(horizon 7, 5-day window starting on day 2). -/
theorem claim_C1_witness :
    (∑ d ∈ days 7, exAssignA.start5 d) = 1 ∧
    (∑ d ∈ days 7, exAssignA.start3 d) = 0 ∧
    (∑ d ∈ days 7, exAssignA.start2 d) = 0 :=
  (claim_C1_mutual_exclusivity 7 availAllTrue exAssignA (by decide)).1 rfl

/-! ## C2: the linking constraint -/

/-- C2.  For every day `d` in 1..T, every feasible assignment of the
built model satisfies the linking equality: `maintenance[d]` equals the
sum of `start5[k]` for `k` from `max 1 (d-4)` to `d`, plus `start3[k]`
for `k` from `max 1 (d-2)` to `d`, plus `start2[k]` for `k` from
`max 1 (d-1)` to `d`. -/
theorem claim_C2_linking (T : ℕ) (avail : ℕ → Bool) (a : Assign)
    (hf : Feasible T avail a) :
    ∀ d ∈ days T,
      a.maintenance d =
        (∑ k ∈ Finset.Icc (max 1 (d - 4)) d, a.start5 k) +
        (∑ k ∈ Finset.Icc (max 1 (d - 2)) d, a.start3 k) +
        (∑ k ∈ Finset.Icc (max 1 (d - 1)) d, a.start2 k) := by
  intro d hd
  exact hf.2.2.2.2.2.2 d hd

/-- Witness for C2 at `exAssignA` and day 4. -/
theorem claim_C2_witness :
    exAssignA.maintenance 4 =
      (∑ k ∈ Finset.Icc (max 1 (4 - 4)) 4, exAssignA.start5 k) +
      (∑ k ∈ Finset.Icc (max 1 (4 - 2)) 4, exAssignA.start3 k) +
      (∑ k ∈ Finset.Icc (max 1 (4 - 1)) 4, exAssignA.start2 k) :=
  claim_C2_linking 7 availAllTrue exAssignA (by decide) 4 (by decide)

/-! ## C4: unavailable days admit no window start -/

/-- Availability with only day 5 unavailable (a one-day blackout). -/
def availNo5 : ℕ → Bool := fun d => if d = 5 then false else true

/-- A feasible assignment for `T = 10` under `availNo5`: the 5-day
window starts on the available day 3 and covers days 3..7, extending
across the unavailable day 5. -/
def exAssignC : Assign where
  split := 0
  maintenance := fun d => if 3 ≤ d ∧ d ≤ 7 then 1 else 0
  start5 := fun d => if d = 3 then 1 else 0
  start3 := fun _ => 0
  start2 := fun _ => 0

example : Feasible 10 availNo5 exAssignC := by decide

/-- C4.  For every day `d` with `availability[d]` false, every feasible
assignment of the produced model has `start5[d] = start3[d] =
start2[d] = 0`: no window of any type starts on an unavailable day,
regardless of the objective. -/
theorem claim_C4_no_start_when_unavailable (T : ℕ) (avail : ℕ → Bool)
    (a : Assign) (hf : Feasible T avail a) :
    ∀ d ∈ days T, avail d = false →
      a.start5 d = 0 ∧ a.start3 d = 0 ∧ a.start2 d = 0 := by
  intro d hd hun
  exact hf.2.2.1 d hd hun

/-- Witness for C4 at `exAssignC` (horizon 10, day 5 unavailable). -/
theorem claim_C4_witness :
    exAssignC.start5 5 = 0 ∧ exAssignC.start3 5 = 0 ∧ exAssignC.start2 5 = 0 :=
  claim_C4_no_start_when_unavailable 10 availNo5 exAssignC (by decide)
    5 (by decide) (by decide)

/-! ## C3: per-day reading of the objective -/

/-- C3.  On assignments with binary `maintenance`, the built objective
equals the per-day case sum: a day with `maintenance[d] = 0` contributes
the full scaled revenue `capacity * production[d] * price[d]`, and a
maintenance day contributes no revenue and the cost
`- fixed_cost * coeff[d]`. -/
theorem claim_C3_objective (T : ℕ) (prod price coeff : ℕ → ℚ)
    (capacity fixed_cost : ℚ) (a : Assign)
    (hbin : ∀ d ∈ days T, a.maintenance d ≤ 1) :
    profitObjective T prod price coeff capacity fixed_cost a =
      ∑ d ∈ days T,
        (if a.maintenance d = 0 then capacity * prod d * price d
          else -(fixed_cost * coeff d)) := by
  unfold profitObjective
  refine Finset.sum_congr rfl fun d hd => ?_
  have hm := hbin d hd
  interval_cases h : a.maintenance d
  · simp
  · norm_num

/-- Witness for C3: the objective at `exAssignA` with concrete uniform
forecasts, computed both ways. -/
theorem claim_C3_witness :
    profitObjective 7 (fun _ => 1) (fun _ => 10) (fun _ => 1) 20 500
        exAssignA =
      ∑ d ∈ days 7,
        (if exAssignA.maintenance d = 0 then (20 : ℚ) * 1 * 10
          else -(500 * 1)) :=
  claim_C3_objective 7 (fun _ => 1) (fun _ => 10) (fun _ => 1) 20 500
    exAssignA (by decide)

/-! ## The Solution Interpreter (`print_solution`, src/main.py lines 7-26) -/

/-- Solver status as read from `results.solver.status` (the Pyomo
`SolverStatus` enumeration). -/
inductive SolverStatus where
  | ok
  | warning
  | error
  | aborted
  | unknown
deriving DecidableEq

/-- Termination condition as read from
`results.solver.termination_condition` (the Pyomo
`TerminationCondition` enumeration, abridged to the values relevant
here; `optimal` is the one the code tests). -/
inductive TerminationCondition where
  | optimal
  | feasible
  | infeasible
  | unbounded
  | maxTimeLimit
  | error
  | unknown
deriving DecidableEq

/-- The solved variable values handed back by the external solver:
floating-point values modelled as rationals (`value(model.Split)`,
`value(model.Start5[day])`, ..., `value(model.profit)`). -/
structure SolvedValues where
  split : ℚ
  start5 : ℕ → ℚ
  start3 : ℕ → ℚ
  start2 : ℕ → ℚ
  profit : ℚ

/-- The days `for day in model.T` in iteration order: 1..T. -/
def dayList (T : ℕ) : List ℕ := (List.range T).map (· + 1)

/-- The window-start days the interpreter reports for one start
variable: the days whose solved value is strictly greater than 0.5
(`if value(model.StartX[day]) > 0.5`, src/main.py lines 14, 19, 21). -/
def reportedStarts (T : ℕ) (v : ℕ → ℚ) : List ℕ :=
  (dayList T).filter (fun d => 1 / 2 < v d)

/-- Rounding for display, `round(value(model.profit), 2)` (src/main.py
line 24), modelled on rationals; Python float rounding agrees with this
away from representation-boundary ties, which no claim exercises. -/
def roundTo2 (q : ℚ) : ℚ := (round (100 * q) : ℤ) / 100

/-- The structured content of what `print_solution` prints: either the
no-solution message, or the chosen strategy with its reported window
start day(s) and the rounded total revenue. -/
inductive Report where
  | noSolution
  | fiveDay (starts : List ℕ) (revenue : ℚ)
  | threeTwo (starts3 starts2 : List ℕ) (revenue : ℚ)
deriving DecidableEq

/-- `print_solution` (src/main.py lines 7-26) as a pure function.  If
the solver status is `ok` and the termination condition is `optimal`,
it reads `Split`: on `value(model.Split) == 0` it reports the 5-day
strategy with the days whose `Start5` value exceeds 0.5, otherwise the
3-day + 2-day strategy with the `Start3` and `Start2` days exceeding
0.5; either way it reports the rounded profit.  Otherwise it reports no
solution. -/
def print_solution (T : ℕ) (status : SolverStatus)
    (tc : TerminationCondition) (v : SolvedValues) : Report :=
  if status = SolverStatus.ok ∧ tc = TerminationCondition.optimal then
    if v.split = 0 then
      Report.fiveDay (reportedStarts T v.start5) (roundTo2 v.profit)
    else
      Report.threeTwo (reportedStarts T v.start3) (reportedStarts T v.start2)
        (roundTo2 v.profit)
  else
    Report.noSolution

/-! ## C5: non-optimal statuses yield the no-solution report -/

/-- C5.  Whenever the solver outcome is anything other than status `ok`
with termination `optimal`, `print_solution` produces the no-solution
report: no strategy, no window start day and no profit value are
reported, and the function is total (it cannot crash past this
boundary). -/
theorem claim_C5_no_solution (T : ℕ) (status : SolverStatus)
    (tc : TerminationCondition) (v : SolvedValues)
    (h : ¬(status = SolverStatus.ok ∧ tc = TerminationCondition.optimal)) :
    print_solution T status tc v = Report.noSolution := by
  unfold print_solution
  rw [if_neg h]

/-- Witness for C5: an infeasible outcome at concrete solved values. -/
theorem claim_C5_witness :
    print_solution 7 SolverStatus.warning TerminationCondition.infeasible
      ⟨0, fun _ => 0, fun _ => 0, fun _ => 0, 0⟩ = Report.noSolution :=
  claim_C5_no_solution 7 SolverStatus.warning TerminationCondition.infeasible
    ⟨0, fun _ => 0, fun _ => 0, fun _ => 0, 0⟩ (by decide)

/-! ## C7: the strict 0.5 threshold on start variables -/

/-- Membership in the reported start-day list unfolds to the strict
threshold test of the source. -/
lemma mem_reportedStarts (T d : ℕ) (v : ℕ → ℚ) :
    d ∈ reportedStarts T v ↔ d ∈ dayList T ∧ 1 / 2 < v d := by
  simp [reportedStarts, List.mem_filter]

/-- C7.  Under an optimal solve, a day is reported as a window start
for `start5` (resp. `start3`, `start2`) exactly when its solved value
is strictly greater than 0.5; a value of exactly 0.5 is treated as
unselected. -/
theorem claim_C7_strict_threshold (T d : ℕ) (v : SolvedValues) :
    (v.split = 0 →
      ∃ l, print_solution T SolverStatus.ok TerminationCondition.optimal v =
          Report.fiveDay l (roundTo2 v.profit) ∧
        (d ∈ l ↔ d ∈ dayList T ∧ 1 / 2 < v.start5 d) ∧
        (v.start5 d = 1 / 2 → d ∉ l)) ∧
    (v.split ≠ 0 →
      ∃ l3 l2, print_solution T SolverStatus.ok TerminationCondition.optimal v =
          Report.threeTwo l3 l2 (roundTo2 v.profit) ∧
        (d ∈ l3 ↔ d ∈ dayList T ∧ 1 / 2 < v.start3 d) ∧
        (v.start3 d = 1 / 2 → d ∉ l3) ∧
        (d ∈ l2 ↔ d ∈ dayList T ∧ 1 / 2 < v.start2 d) ∧
        (v.start2 d = 1 / 2 → d ∉ l2)) := by
  have hnot : ∀ w : ℕ → ℚ, w d = 1 / 2 → d ∉ reportedStarts T w := by
    intro w hw hmem
    exact absurd ((mem_reportedStarts T d w).mp hmem).2 (by rw [hw]; exact lt_irrefl _)
  constructor
  · intro h0
    refine ⟨reportedStarts T v.start5, ?_, mem_reportedStarts T d v.start5,
      hnot v.start5⟩
    simp [print_solution, h0]
  · intro h1
    refine ⟨reportedStarts T v.start3, reportedStarts T v.start2, ?_,
      mem_reportedStarts T d v.start3, hnot v.start3,
      mem_reportedStarts T d v.start2, hnot v.start2⟩
    simp [print_solution, h1]

/-- Solved values with an exact-0.5 `start5` value on day 4. -/
def exSolvedHalf : SolvedValues where
  split := 0
  start5 := fun d => if d = 3 then 1 else if d = 4 then 1 / 2 else 0
  start3 := fun _ => 0
  start2 := fun _ => 0
  profit := 42

/-- Witness for C7 at `exSolvedHalf` (split 0, day 4 valued exactly
0.5). -/
theorem claim_C7_witness :
    ∃ l, print_solution 5 SolverStatus.ok TerminationCondition.optimal
        exSolvedHalf = Report.fiveDay l (roundTo2 exSolvedHalf.profit) ∧
      (4 ∈ l ↔ 4 ∈ dayList 5 ∧ 1 / 2 < exSolvedHalf.start5 4) ∧
      (exSolvedHalf.start5 4 = 1 / 2 → 4 ∉ l) :=
  (claim_C7_strict_threshold 5 4 exSolvedHalf).1 rfl

/-! ## C10: strategy selection tests split for exact equality with 0 -/

/-- C10.  Under an optimal solve, the interpreter picks the strategy by
an exact equality test `split == 0`: any nonzero solved `split` value,
however close to 0, yields the 3-day + 2-day report, and only an
exactly-zero `split` yields the 5-day report. -/
theorem claim_C10_split_exact_equality (T : ℕ) (v : SolvedValues) :
    (v.split = 0 →
      print_solution T SolverStatus.ok TerminationCondition.optimal v =
        Report.fiveDay (reportedStarts T v.start5) (roundTo2 v.profit)) ∧
    (v.split ≠ 0 →
      print_solution T SolverStatus.ok TerminationCondition.optimal v =
        Report.threeTwo (reportedStarts T v.start3) (reportedStarts T v.start2)
          (roundTo2 v.profit)) := by
  constructor
  · intro h0
    simp [print_solution, h0]
  · intro h1
    simp [print_solution, h1]

/-- Solved values whose `split` is the tiny nonzero float 1e-9. -/
def exSolvedTinySplit : SolvedValues where
  split := 1 / 1000000000
  start5 := fun _ => 0
  start3 := fun d => if d = 1 then 1 else 0
  start2 := fun d => if d = 3 then 1 else 0
  profit := 7

/-- Witness for C10: a solved `split` of 1e-9 is classified as the
split strategy. -/
theorem claim_C10_witness :
    print_solution 4 SolverStatus.ok TerminationCondition.optimal
        exSolvedTinySplit =
      Report.threeTwo (reportedStarts 4 exSolvedTinySplit.start3)
        (reportedStarts 4 exSolvedTinySplit.start2)
        (roundTo2 exSolvedTinySplit.profit) :=
  (claim_C10_split_exact_equality 4 exSolvedTinySplit).2
    (by norm_num [exSolvedTinySplit])

/-! ## C8: the horizon equals the maximum forecast day index -/

/-- The horizon of the built model, `model.T = RangeSet(1, len(prod))`
(src/main.py line 33): the number of keys of the forecast mapping. -/
def modelHorizon (keys : Finset ℕ) : ℕ := keys.card

/-- The maximum day index present in the forecast data
(`max(prod.keys())`, src/main.py line 88); 0 for an empty mapping. -/
def maxDayIndex (keys : Finset ℕ) : ℕ := keys.sup id

/-- The forecast mappings on which `build_model` succeeds.  Pyomo
rejects the model construction unless every key of the initializing
dict lies in the index set `RangeSet(1, len(prod))` (the `Param`
constructors, lines 34-37), and the availability loop (lines 45-49)
and the objective (lines 63-70) read a value for every day of the
range, so every day in `1..len(prod)` must be a key. -/
def buildAccepts (keys : Finset ℕ) : Prop :=
  keys ⊆ Finset.Icc 1 keys.card ∧ Finset.Icc 1 keys.card ⊆ keys

instance (keys : Finset ℕ) : Decidable (buildAccepts keys) := by
  unfold buildAccepts
  infer_instance

lemma sup_id_Icc_one (n : ℕ) : (Finset.Icc 1 n).sup id = n := by
  rcases Nat.eq_zero_or_pos n with h | h
  · subst h; simp
  · refine le_antisymm (Finset.sup_le fun x hx => (Finset.mem_Icc.mp hx).2) ?_
    exact Finset.le_sup (f := id) (Finset.mem_Icc.mpr ⟨h, le_rfl⟩)

/-- C8.  For every forecast mapping accepted by `build_model`, the
horizon `len(prod)` used for the model's day index set equals the
maximum day index present in the forecast data. -/
theorem claim_C8_horizon_is_max_day (keys : Finset ℕ)
    (h : buildAccepts keys) :
    modelHorizon keys = maxDayIndex keys := by
  obtain ⟨h1, h2⟩ := h
  have hk : keys = Finset.Icc 1 keys.card := le_antisymm h1 h2
  unfold modelHorizon maxDayIndex
  conv_rhs => rw [hk]
  exact (sup_id_Icc_one keys.card).symm

/-- Witness for C8 at the concrete accepted key set {1, 2, 3}. -/
theorem claim_C8_witness :
    modelHorizon {1, 2, 3} = maxDayIndex {1, 2, 3} :=
  claim_C8_horizon_is_max_day {1, 2, 3} (by decide)

/-! ## Helper lemmas on natural-valued sums over the day range -/

lemma mem_days {T d : ℕ} : d ∈ days T ↔ 1 ≤ d ∧ d ≤ T := by
  simp [days]

lemma clip_subset_days {T d c : ℕ} (hd : d ∈ days T) :
    Finset.Icc (max 1 (d - c)) d ⊆ days T := by
  intro k hk
  rw [Finset.mem_Icc] at hk
  rw [mem_days] at hd
  rw [mem_days]
  omega

lemma nat_sum_eq_one {s : Finset ℕ} {f : ℕ → ℕ} :
    (∑ x ∈ s, f x) = 1 →
    ∃ a ∈ s, f a = 1 ∧ ∀ b ∈ s, b ≠ a → f b = 0 := by
  induction s using Finset.induction_on with
  | empty => intro h; simp at h
  | @insert a t ha ih =>
    intro h
    rw [Finset.sum_insert ha] at h
    rcases Nat.eq_zero_or_pos (f a) with h0 | hpos
    · rw [h0, Nat.zero_add] at h
      obtain ⟨w, hw, hw1, hwz⟩ := ih h
      refine ⟨w, Finset.mem_insert_of_mem hw, hw1, ?_⟩
      intro b hb hbw
      rcases Finset.mem_insert.mp hb with rfl | hbt
      · exact h0
      · exact hwz b hbt hbw
    · have hfa : f a = 1 ∧ (∑ x ∈ t, f x) = 0 := by omega
      refine ⟨a, Finset.mem_insert_self a t, hfa.1, ?_⟩
      intro b hb hba
      rcases Finset.mem_insert.mp hb with rfl | hbt
      · exact absurd rfl hba
      · exact Finset.sum_eq_zero_iff.mp hfa.2 b hbt

lemma nat_sum_single_ite {s : Finset ℕ} {f : ℕ → ℕ} {a : ℕ}
    (ha : f a = 1) (hz : ∀ b ∈ s, b ≠ a → f b = 0) :
    (∑ x ∈ s, f x) = if a ∈ s then 1 else 0 := by
  by_cases hm : a ∈ s
  · rw [if_pos hm, Finset.sum_eq_single_of_mem a hm hz, ha]
  · rw [if_neg hm]
    exact Finset.sum_eq_zero fun b hb => hz b hb (fun e => hm (e ▸ hb))

/-! ## C6: shape of the maintained day set -/

/-- Amended C6.  In every feasible assignment the maintained days are
exactly the horizon days covered by the started windows.  If
`split = 0` there is a start day `s` with `start5[s] = 1` and, for
every horizon day `d`, `maintenance[d] = 1` iff `s ≤ d ≤ s + 4`: a
single contiguous run beginning at `s`, of exactly 5 days unless
truncated at the upper bound of the horizon.  If `split = 1` there are
start days `s3`, `s2` with `start3[s3] = start2[s2] = 1`, the two
nominal windows `[s3, s3+2]` and `[s2, s2+1]` are disjoint on the
horizon (though possibly adjacent), and `maintenance[d] = 1` iff `d`
lies in one of them.  (The original claim's "exactly 5/3/2 days" and
"clipped only at the lower bound" both fail: a window starting near
day T is truncated at the upper bound, and the left-clipping in the
linking rule never shortens a run since start days are at least 1.) -/
theorem claim_C6_maintenance_runs (T : ℕ) (avail : ℕ → Bool) (a : Assign)
    (hf : Feasible T avail a) :
    (a.split = 0 →
      ∃ s ∈ days T, a.start5 s = 1 ∧
        ∀ d ∈ days T, (a.maintenance d = 1 ↔ s ≤ d ∧ d ≤ s + 4)) ∧
    (a.split = 1 →
      ∃ s3 ∈ days T, ∃ s2 ∈ days T, a.start3 s3 = 1 ∧ a.start2 s2 = 1 ∧
        (∀ d ∈ days T,
          ¬((s3 ≤ d ∧ d ≤ s3 + 2) ∧ (s2 ≤ d ∧ d ≤ s2 + 1))) ∧
        ∀ d ∈ days T,
          (a.maintenance d = 1 ↔
            (s3 ≤ d ∧ d ≤ s3 + 2) ∨ (s2 ≤ d ∧ d ≤ s2 + 1))) := by
  obtain ⟨hsp, hbin, hfix, h5, h3, h2, hlink⟩ := hf
  constructor
  · intro h0
    rw [h0] at h5 h3 h2
    obtain ⟨s, hsmem, hs1, hsz⟩ := nat_sum_eq_one h5
    have hz3 : ∀ k ∈ days T, a.start3 k = 0 := Finset.sum_eq_zero_iff.mp h3
    have hz2 : ∀ k ∈ days T, a.start2 k = 0 := Finset.sum_eq_zero_iff.mp h2
    refine ⟨s, hsmem, hs1, ?_⟩
    intro d hd
    have hmd := hlink d hd
    rw [link_maintenance_rhs] at hmd
    have e3 : (∑ k ∈ Finset.Icc (max 1 (d - 2)) d, a.start3 k) = 0 :=
      Finset.sum_eq_zero fun k hk => hz3 k (clip_subset_days hd hk)
    have e2 : (∑ k ∈ Finset.Icc (max 1 (d - 1)) d, a.start2 k) = 0 :=
      Finset.sum_eq_zero fun k hk => hz2 k (clip_subset_days hd hk)
    have e5 : (∑ k ∈ Finset.Icc (max 1 (d - 4)) d, a.start5 k) =
        if s ∈ Finset.Icc (max 1 (d - 4)) d then 1 else 0 :=
      nat_sum_single_ite hs1 fun b hb hbs => hsz b (clip_subset_days hd hb) hbs
    rw [e3, e2, e5] at hmd
    simp only [Finset.mem_Icc] at hmd
    have hs1le : 1 ≤ s := (mem_days.mp hsmem).1
    split_ifs at hmd <;> omega
  · intro h1
    rw [h1] at h5 h3 h2
    have h5z : (∑ d ∈ days T, a.start5 d) = 0 := by omega
    have hz5 : ∀ k ∈ days T, a.start5 k = 0 := Finset.sum_eq_zero_iff.mp h5z
    obtain ⟨s3, h3mem, h31, h3z⟩ := nat_sum_eq_one h3
    obtain ⟨s2, h2mem, h21, h2z⟩ := nat_sum_eq_one h2
    have key : ∀ d ∈ days T,
        a.maintenance d =
          (if s3 ≤ d ∧ d ≤ s3 + 2 then 1 else 0) +
          (if s2 ≤ d ∧ d ≤ s2 + 1 then 1 else 0) := by
      intro d hd
      have hmd := hlink d hd
      rw [link_maintenance_rhs] at hmd
      have e5 : (∑ k ∈ Finset.Icc (max 1 (d - 4)) d, a.start5 k) = 0 :=
        Finset.sum_eq_zero fun k hk => hz5 k (clip_subset_days hd hk)
      have e3 : (∑ k ∈ Finset.Icc (max 1 (d - 2)) d, a.start3 k) =
          if s3 ∈ Finset.Icc (max 1 (d - 2)) d then 1 else 0 :=
        nat_sum_single_ite h31 fun b hb hbs =>
          h3z b (clip_subset_days hd hb) hbs
      have e2 : (∑ k ∈ Finset.Icc (max 1 (d - 1)) d, a.start2 k) =
          if s2 ∈ Finset.Icc (max 1 (d - 1)) d then 1 else 0 :=
        nat_sum_single_ite h21 fun b hb hbs =>
          h2z b (clip_subset_days hd hb) hbs
      rw [e5, e3, e2] at hmd
      simp only [Finset.mem_Icc] at hmd
      have c3 : 1 ≤ s3 := (mem_days.mp h3mem).1
      have c2 : 1 ≤ s2 := (mem_days.mp h2mem).1
      rw [hmd]
      split_ifs <;> omega
    refine ⟨s3, h3mem, s2, h2mem, h31, h21, ?_, ?_⟩
    · intro d hd hboth
      have hmd := key d hd
      have hb := (hbin d hd).1
      rw [if_pos hboth.1, if_pos hboth.2] at hmd
      omega
    · intro d hd
      have hmd := key d hd
      have hb := (hbin d hd).1
      split_ifs at hmd <;> omega

/-- Witness for C6 at `exAssignA`: horizon 7, a full 5-day run on days
2..6 starting at day 2. -/
theorem claim_C6_witness :
    ∃ s ∈ days 7, exAssignA.start5 s = 1 ∧
      ∀ d ∈ days 7,
        (exAssignA.maintenance d = 1 ↔ s ≤ d ∧ d ≤ s + 4) :=
  (claim_C6_maintenance_runs 7 availAllTrue exAssignA (by decide)).1 rfl

/-- A feasible 5-day-strategy assignment for `T = 5` in which the
window starts on the last day: only day 5 is maintained. -/
def exAssignEnd : Assign where
  split := 0
  maintenance := fun d => if d = 5 then 1 else 0
  start5 := fun d => if d = 5 then 1 else 0
  start3 := fun _ => 0
  start2 := fun _ => 0

/-- Counterexample to C6 as stated: a feasible assignment with
`split = 0` whose maintained set has exactly one day (day 5, the start
day), not five — the run is truncated at the upper bound of the
horizon, which the claim does not allow. -/
theorem claim_C6_counterexample :
    Feasible 5 availAllTrue exAssignEnd ∧ exAssignEnd.split = 0 ∧
      ((days 5).filter (fun d => exAssignEnd.maintenance d = 1)).card = 1 := by
  decide

/-! ## C9: maintenance on unavailable days -/

/-- Counterexample to C9 as stated: under availability that forbids
only day 5, the assignment starting a 5-day window on day 3 is
feasible and maintains day 5 — a window started on an available day
continues across an unavailable one. -/
theorem claim_C9_counterexample :
    Feasible 10 availNo5 exAssignC ∧ availNo5 5 = false ∧
      exAssignC.maintenance 5 = 1 := by
  decide

/-- Amended C9.  Unavailability only prevents maintenance from
starting: in every feasible assignment, a horizon day `d` with
`availability[d]` false is under maintenance only as the continuation
of a window that started on a strictly earlier day — some `k < d` in
the horizon with `start5[k] = 1` and `d ≤ k + 4`, or `start3[k] = 1`
and `d ≤ k + 2`, or `start2[k] = 1` and `d ≤ k + 1`.  (The original
claim, that `maintenance[d] = 0` on every unavailable day, fails: the
model fixes only the start variables on unavailable days.) -/
theorem claim_C9_continuation_only (T : ℕ) (avail : ℕ → Bool) (a : Assign)
    (hf : Feasible T avail a) :
    ∀ d ∈ days T, avail d = false → a.maintenance d = 1 →
      ∃ k ∈ days T, k < d ∧
        ((a.start5 k = 1 ∧ d ≤ k + 4) ∨ (a.start3 k = 1 ∧ d ≤ k + 2) ∨
          (a.start2 k = 1 ∧ d ≤ k + 1)) := by
  obtain ⟨hsp, hbin, hfix, h5, h3, h2, hlink⟩ := hf
  intro d hd hun hm1
  obtain ⟨hf5, hf3, hf2⟩ := hfix d hd hun
  have hmd := hlink d hd
  rw [link_maintenance_rhs, hm1] at hmd
  have hcase : (∑ k ∈ Finset.Icc (max 1 (d - 4)) d, a.start5 k) ≠ 0 ∨
      (∑ k ∈ Finset.Icc (max 1 (d - 2)) d, a.start3 k) ≠ 0 ∨
      (∑ k ∈ Finset.Icc (max 1 (d - 1)) d, a.start2 k) ≠ 0 := by omega
  rcases hcase with hc | hc | hc
  · obtain ⟨k, hkmem, hknz⟩ := Finset.exists_ne_zero_of_sum_ne_zero hc
    have hkd := Finset.mem_Icc.mp hkmem
    have hkdays : k ∈ days T := clip_subset_days hd hkmem
    have hk1 : a.start5 k = 1 := by
      have := (hbin k hkdays).2.1
      omega
    have hkne : k ≠ d := fun e => hknz (by rw [e]; exact hf5)
    exact ⟨k, hkdays, by omega, Or.inl ⟨hk1, by omega⟩⟩
  · obtain ⟨k, hkmem, hknz⟩ := Finset.exists_ne_zero_of_sum_ne_zero hc
    have hkd := Finset.mem_Icc.mp hkmem
    have hkdays : k ∈ days T := clip_subset_days hd hkmem
    have hk1 : a.start3 k = 1 := by
      have := (hbin k hkdays).2.2.1
      omega
    have hkne : k ≠ d := fun e => hknz (by rw [e]; exact hf3)
    exact ⟨k, hkdays, by omega, Or.inr (Or.inl ⟨hk1, by omega⟩)⟩
  · obtain ⟨k, hkmem, hknz⟩ := Finset.exists_ne_zero_of_sum_ne_zero hc
    have hkd := Finset.mem_Icc.mp hkmem
    have hkdays : k ∈ days T := clip_subset_days hd hkmem
    have hk1 : a.start2 k = 1 := by
      have := (hbin k hkdays).2.2.2
      omega
    have hkne : k ≠ d := fun e => hknz (by rw [e]; exact hf2)
    exact ⟨k, hkdays, by omega, Or.inr (Or.inr ⟨hk1, by omega⟩)⟩

/-- Witness for the amended C9 at `exAssignC`: the maintained
unavailable day 5 is covered by the window started on day 3. -/
theorem claim_C9_witness :
    ∃ k ∈ days 10, k < 5 ∧
      ((exAssignC.start5 k = 1 ∧ 5 ≤ k + 4) ∨
        (exAssignC.start3 k = 1 ∧ 5 ≤ k + 2) ∨
        (exAssignC.start2 k = 1 ∧ 5 ≤ k + 1)) :=
  claim_C9_continuation_only 10 availNo5 exAssignC (by decide) 5 (by decide)
    (by decide) (by decide)

end MaintSched
